import Mathlib

/-!
Shallow embedding of django-autoslug's core (src/autoslug/utils.py and the
relevant call site in src/autoslug/fields.py), together with theorems that
settle the specification claims about it.

Strings from the Python side are modelled as `List Char` (Python `len`,
slicing and concatenation correspond to `List.length`, `List.take` and
`List.append`).  Attribute/field names are Lean `String`s (used only for
equality tests).  Model records (`Inst`), the per-field configuration
(`SlugField`) and the record store (`Db`) follow section 3 of the spec but
are translated from the source code.
-/

namespace Autoslug

/-- Characters of a string literal; Python string values are `List Char`. -/
def strChars (s : String) : List Char := s.data

/-- A slug value: a Python string, as a list of characters. -/
abbrev Slug := List Char

/-- Decimal digits of a natural number, as Python `str(index)`. -/
def natDigits (n : Nat) : List Char := strChars (Nat.repr n)

/-- Python prefix slice `s[:k]` where `k` may be negative
(`s[:-j]` drops the final `j` characters, clamped at the empty string). -/
def pyTakeTo (s : Slug) (k : Int) : Slug :=
  if k < 0 then s.take (s.length - (-k).toNat) else s.take k.toNat

/-- Schema information for one model field, as used by
`get_uniqueness_lookups`: `fid` is the field object's identity (Django
compares field objects with `==`), `blank` records whether the field is
optional, `isDate` whether it is a `DateField` (or subclass). -/
structure FieldInfo where
  fid : Nat
  blank : Bool
  isDate : Bool
deriving DecidableEq, Repr

/-- A Python attribute value, covering everything the embedded code
inspects: `None`, strings, ints, date objects (with `year`/`month`/`day`
attributes), model instances (record-like values carrying `_meta`, i.e. a
schema and their own attributes) and zero-argument callables (modelled by
the value the call returns). -/
inductive Value where
  | vnone : Value
  | vstr (s : List Char) : Value
  | vint (n : Int) : Value
  | vdate (y m d : Int) : Value
  | vrec (fields : List (String × FieldInfo)) (attrs : List (String × Value)) : Value
  | vfun (ret : Value) : Value

mutual

/-- Structural equality of two attribute values (Python `==` on the
modelled values; nested records compare component-wise). -/
def valueBeq : Value → Value → Bool
  | .vnone, .vnone => true
  | .vstr a, .vstr b => a = b
  | .vint a, .vint b => a = b
  | .vdate y1 m1 d1, .vdate y2 m2 d2 => y1 = y2 && m1 = m2 && d1 = d2
  | .vrec f1 a1, .vrec f2 a2 => f1 = f2 && attrsBeq a1 a2
  | .vfun r1, .vfun r2 => valueBeq r1 r2
  | _, _ => false

/-- Component of `valueBeq`: equality of attribute dictionaries. -/
def attrsBeq : List (String × Value) → List (String × Value) → Bool
  | [], [] => true
  | (k1, v1) :: t1, (k2, v2) :: t2 => k1 = k2 && valueBeq v1 v2 && attrsBeq t1 t2
  | _, _ => false

end

/-- Equality on optional values, for `lookupAttr` results. -/
def optValueBeq : Option Value → Option Value → Bool
  | none, none => true
  | some a, some b => valueBeq a b
  | _, _ => false

/-- Python truthiness (`if not value:`) for the modelled values:
`None`, the empty string and `0` are falsy; dates, model instances and
function objects are truthy. -/
def truthy : Value → Bool
  | .vnone => false
  | .vstr s => !s.isEmpty
  | .vint n => n != 0
  | .vdate _ _ _ => true
  | .vrec _ _ => true
  | .vfun _ => true

/-- A model instance: its schema (`_meta`: field name to field info) and
its attribute dictionary. -/
structure Inst where
  fields : List (String × FieldInfo)
  attrs : List (String × Value)

/-- `instance._meta.get_field(name)`; `none` models `FieldDoesNotExist`. -/
def lookupField (fields : List (String × FieldInfo)) (n : String) : Option FieldInfo :=
  match fields with
  | [] => none
  | (k, fi) :: rest => if k = n then some fi else lookupField rest n

/-- `getattr(instance, name)`; `none` models `AttributeError`. -/
def lookupAttr (attrs : List (String × Value)) (n : String) : Option Value :=
  match attrs with
  | [] => none
  | (k, v) :: rest => if k = n then some v else lookupAttr rest n

/-- A `unique_with` path, pre-split on `__`: the leading attribute name and
the remaining segments (Django field names cannot contain `__`, so this is
a faithful representation of the string the code splits).  A path ending
in `__`, such as `"pub_date__"`, splits to an empty remainder: it is
represented as `("pub_date", [""])`, while `"pub_date"` with no `__` is
`("pub_date", [])`. -/
abbrev Path := String × List String

/-- Joining path segments back with `__` (the `original_lookup_name`). -/
def joinSegs : List String → String
  | [] => ""
  | [s] => s
  | s :: rest => s ++ "__" ++ joinSegs rest

/-- The original `unique_with` string of a pre-split path. -/
def pathName (p : Path) : String := joinSegs (p.1 :: p.2)

/-- Size of a path (number of `__`-separated segments). -/
def pathSize (p : Path) : Nat := 1 + p.2.length

/-- Total size of a `unique_with` list, the termination measure of
`get_uniqueness_lookups`. -/
def pathsSize : List Path → Nat
  | [] => 0
  | p :: rest => pathSize p + pathsSize rest

/-- Per-field configuration of an `AutoSlugField` (fields.py `__init__`):
the column name, the field object's own schema info (for the
self-reference check), `max_length`, `index_sep`, `unique_with` and
`unique`. -/
structure SlugField where
  name : String
  info : FieldInfo
  maxLength : Nat
  indexSep : Slug
  uniqueWith : List Path
  unique : Bool

/-- `crop_slug` (utils.py lines 149-152). -/
def crop_slug (maxLength : Nat) (slug : Slug) : Slug :=
  if maxLength < slug.length then slug.take maxLength else slug

/-- The date granularity tokens (`parts` in utils.py line 128). -/
def dateParts : List String := [("year"), ("month"), ("day")]

/-- Position of an element in a list (`list.index`); `none` models the
`ValueError` Python raises when the element is absent. -/
def idxOf (l : List String) (x : String) : Option Nat :=
  match l with
  | [] => none
  | a :: rest => if a = x then some 0 else (idxOf rest x).map (· + 1)

/-- Python falsiness of the `inner_lookup` remainder, in the pre-split
representation.  `split('__', 1)` leaves `inner_lookup = None` when the
path has no `__` (our `[]`) and `inner_lookup = ''` when the path ends in
`__` (our `[""]`); both are falsy, so `inner_lookup or 'day'`
(utils.py line 118) defaults them to day granularity and
`if inner_lookup:` (utils.py line 140) treats them as absent.  Any other
remainder joins to a non-empty string and is truthy. -/
def innerFalsy : List String → Bool
  | [] => true
  | [s] => s.isEmpty
  | _ :: _ :: _ => false

/-- The date lookups yielded by utils.py lines 135-137: one
`(field_name__part, getattr(value, part))` pair per granularity level.
`getattr(value, part)` on a non-date value raises `AttributeError`. -/
def dateLookups (fname : String) (v : Value) (g : Nat) : Except String (List (String × Value)) :=
  match v with
  | .vdate y m d =>
    .ok ((dateParts.take g).map (fun part =>
      (fname ++ "__" ++ part,
        if part = ("year") then Value.vint y
        else if part = ("month") then Value.vint m
        else Value.vint d)))
  | _ => .error ("AttributeError: no date parts")

/-- Propagate an exception from the remaining paths, or prepend this
path's yielded lookups to theirs. -/
def consLookups (ps : List (String × Value)) :
    Except String (List (String × Value)) → Except String (List (String × Value))
  | .error e => .error e
  | .ok tailPairs => .ok (ps ++ tailPairs)

/-- `get_uniqueness_lookups` (utils.py lines 83-147), with the generator
fully forced as `generate_unique_slug` line 43 does (`tuple(...)`): an
exception anywhere discards all pairs; `break` (line 109) ends the loop,
keeping pairs yielded by earlier paths and dropping all later paths. -/
def get_uniqueness_lookups (field : SlugField) (inst : Inst) (uw : List Path) :
    Except String (List (String × Value)) :=
  match uw with
  | [] => .ok []
  | (fname, inner) :: rest =>
    match lookupField inst.fields fname with
    | none =>
      -- utils.py lines 93-99: FieldDoesNotExist
      .error ("could not find attribute " ++ fname)
    | some otherField =>
      if field.info.fid = otherField.fid then
        -- utils.py lines 101-104: the path references the slug field itself
        .error ("attribute " ++ fname ++ " references itself")
      else
        match lookupAttr inst.attrs fname with
        | none => .error ("AttributeError: " ++ fname)
        | some value =>
          if truthy value = false then
            if otherField.blank then
              -- utils.py line 109: `break` leaves the whole loop
              .ok []
            else
              -- utils.py lines 110-116: empty non-optional attribute
              .error ("could not check uniqueness: " ++ fname ++ " is empty")
          else if otherField.isDate then
            -- utils.py lines 117-137; line 118 `inner_lookup or 'day'`
            -- defaults a falsy remainder (absent or empty) to day
            let innerL := if innerFalsy inner then [("day")] else inner
            match innerL with
            | [] => .error ("unreachable")
            | [g] =>
              match idxOf dateParts g with
              | none =>
                -- utils.py lines 131-133: invalid granularity token
                .error ("expected year, month or day, got " ++ g)
              | some i =>
                match dateLookups fname value (i + 1) with
                | .error e => .error e
                | .ok pairs => consLookups pairs (get_uniqueness_lookups field inst rest)
            | _ :: _ :: _ =>
              -- utils.py lines 120-126: only one nesting level for dates
              .error ("only one level of nesting is accepted for dates")
          else
            -- utils.py lines 138-147; `if inner_lookup:` (line 140) is
            -- falsy both for an absent remainder (no `__` in the path)
            -- and for the empty remainder of a path ending in `__` —
            -- both yield the plain (field_name, value) lookup of line 147
            match inner with
            | [] => consLookups [(fname, value)] (get_uniqueness_lookups field inst rest)
            | ih :: it =>
              if innerFalsy (ih :: it) then
                consLookups [(fname, value)] (get_uniqueness_lookups field inst rest)
              else
                match value with
                | .vrec rf ra =>
                  -- utils.py lines 144-145: recurse into the related
                  -- record, keyed by the original outer path string
                  match get_uniqueness_lookups field ⟨rf, ra⟩ [(ih, it)] with
                  | .error e => .error e
                  | .ok innerPairs =>
                    consLookups (innerPairs.map (fun pr => (pathName (fname, inner), pr.2)))
                      (get_uniqueness_lookups field inst rest)
                | _ =>
                  -- utils.py lines 141-143: value is not record-like
                  .error ("could not resolve lookup " ++ pathName (fname, inner))
termination_by pathsSize uw
decreasing_by
  all_goals simp [pathsSize, pathSize]
  all_goals omega

/-- A stored record in the external record store, with its primary key. -/
structure DbRec where
  pk : Nat
  attrs : List (String × Value)

/-- The external record store (`type(instance).objects`). -/
abbrev Db := List DbRec

/-- The model instance being saved: its schema/attributes plus its primary
key (`none` while unsaved). -/
structure MInst where
  inst : Inst
  pk : Option Nat

/-- Python `dict` insertion: overwrite the binding if the key exists, else
append. -/
def dictInsert (m : List (String × Value)) (k : String) (v : Value) : List (String × Value) :=
  if m.any (fun p => p.1 = k) then
    m.map (fun p => if p.1 = k then (k, v) else p)
  else
    m ++ [(k, v)]

/-- `dict(default_lookups, **{field.name: slug})` (utils.py line 53). -/
def dictOfLookups (defaults : List (String × Value)) (slugKey : String) (slug : Slug) :
    List (String × Value) :=
  dictInsert (defaults.foldl (fun m p => dictInsert m p.1 p.2) []) slugKey (.vstr slug)

/-- `.filter(**lookups)`: the record matches every exact-match constraint. -/
def matchesLookups (lookups : List (String × Value)) (r : DbRec) : Bool :=
  lookups.all (fun p => optValueBeq (lookupAttr r.attrs p.1) (some p.2))

/-- `rivals = ....filter(**lookups).exclude(pk=instance.pk)` is non-empty
(utils.py lines 54-56).  An unsaved instance (`pk = none`) excludes no
stored record. -/
def rivalsExist (db : Db) (excludePk : Option Nat) (lookups : List (String × Value)) : Bool :=
  db.any (fun r => matchesLookups lookups r && !(excludePk = some r.pk))

/-- The rival check for one candidate slug: utils.py lines 53-56 with the
scope lookups fixed and the slug binding varying. -/
def slugTaken (field : SlugField) (db : Db) (pk : Option Nat)
    (dl : List (String × Value)) (slug : Slug) : Bool :=
  rivalsExist db pk (dictOfLookups dl field.name slug)

/-- Phase 1 of `generate_unique_slug` (utils.py lines 47-58 with
`add_index = False`): each candidate is cropped and checked once; the
first free one is returned, a collision `break`s to the next candidate. -/
def phase1 (field : SlugField) (db : Db) (pk : Option Nat)
    (dl : List (String × Value)) : List Slug → Option Slug
  | [] => none
  | s :: rest =>
    let c := crop_slug field.maxLength s
    if slugTaken field db pk dl c then phase1 field db pk dl rest else some c

/-- The `while True` loop of utils.py lines 51-79 with `add_index = True`:
check the current slug; if taken, pre-increment `index`, truncate the
running base so the suffix fits (Python slice semantics, line 74) and
re-generate `slug = original + sep + str(index)` (lines 77-78).  `fuel`
bounds the number of rival checks; exhaustion (`none`) models
non-termination. -/
def suffixSearch (field : SlugField) (db : Db) (pk : Option Nat)
    (dl : List (String × Value)) (original slug : Slug) (index : Nat) :
    Nat → Option Slug
  | 0 => none
  | fuel + 1 =>
    if slugTaken field db pk dl slug then
      let index' := index + 1
      let tailLen := field.indexSep.length + (natDigits index').length
      let original' :=
        if field.maxLength < original.length + tailLen then
          pyTakeTo original ((field.maxLength : Int) - (tailLen : Int))
        else original
      suffixSearch field db pk dl original' (original' ++ field.indexSep ++ natDigits index')
        index' fuel
    else some slug

/-- Phase 2 of `generate_unique_slug` (`add_index = True`): the loop body
never `break`s, so only the first candidate is ever suffixed; an empty
candidate list falls through (Python returns `None`). -/
def phase2 (field : SlugField) (db : Db) (pk : Option Nat)
    (dl : List (String × Value)) (slugs : List Slug) (index fuel : Nat) : Option Slug :=
  match slugs with
  | [] => none
  | s :: _ =>
    let c := crop_slug field.maxLength s
    suffixSearch field db pk dl c c index fuel

/-- `generate_unique_slug` (utils.py lines 33-81): force the scope lookups
(line 43, `tuple(...)` — an invalid `unique_with` raises before any rival
query), then run the two phases with the shared counter `index = 1`
(line 45; phase 1 never touches it). -/
def generate_unique_slug (field : SlugField) (minst : MInst) (db : Db)
    (slugs : List Slug) (fuel : Nat) : Except String (Option Slug) :=
  match get_uniqueness_lookups field minst.inst field.uniqueWith with
  | .error e => .error e
  | .ok dl =>
    match phase1 field db minst.pk dl slugs with
    | some s => .ok (some s)
    | none => .ok (phase2 field db minst.pk dl slugs 1 fuel)

/-! ## Concrete fixtures for witnesses and counterexamples -/

/-- A plain slug field named `slug`: separator `-`, no `unique_with`,
`unique = True`, configurable `max_length`. -/
def mkField (maxLen : Nat) : SlugField :=
  ⟨("slug"), ⟨0, false, false⟩, maxLen, strChars ("-"), [], true⟩

/-- A minimal record whose only field is the slug field itself. -/
def plainInst : Inst :=
  ⟨[(("slug"), ⟨0, false, false⟩)], [(("slug"), Value.vstr [])]⟩

/-- The minimal record, unsaved (no primary key yet). -/
def plainMInst : MInst := ⟨plainInst, none⟩

/-! ## Helper lemmas -/

set_option maxHeartbeats 1600000 in
/-- `get_uniqueness_lookups` on an empty `unique_with` yields no lookups. -/
theorem gul_nil (field : SlugField) (inst : Inst) :
    get_uniqueness_lookups field inst [] = .ok [] := by
  rw [get_uniqueness_lookups.eq_def]

/-- A cropped slug never exceeds `max_length`. -/
theorem crop_slug_length_le (m : Nat) (s : Slug) : (crop_slug m s).length ≤ m := by
  unfold crop_slug
  split
  · simp
  · omega

/-! ## Claim C1 -/

/-- Claim C1: for every non-empty candidate list and every scope in which
no existing record matches any (cropped) candidate, `generate_unique_slug`
returns the first candidate cropped to `max_length`, with no numeric
suffix appended. -/
theorem claim_C1 (field : SlugField) (minst : MInst) (db : Db)
    (dl : List (String × Value)) (s : Slug) (rest : List Slug) (fuel : Nat)
    (hgul : get_uniqueness_lookups field minst.inst field.uniqueWith = .ok dl)
    (hfree : ∀ c ∈ s :: rest,
      slugTaken field db minst.pk dl (crop_slug field.maxLength c) = false) :
    generate_unique_slug field minst db (s :: rest) fuel =
      .ok (some (crop_slug field.maxLength s)) := by
  have h1 : slugTaken field db minst.pk dl (crop_slug field.maxLength s) = false :=
    hfree s (by simp)
  unfold generate_unique_slug
  rw [hgul]
  simp [phase1, h1]

/-- The spec scenario for C1: candidate `hello-world`, `max_length = 50`,
empty record store; the resolver returns `hello-world` unchanged. -/
theorem claim_C1_witness :
    generate_unique_slug (mkField 50) plainMInst [] [strChars ("hello-world")] 3 =
      .ok (some (strChars ("hello-world"))) := by
  have h := claim_C1 (mkField 50) plainMInst [] [] (strChars ("hello-world")) [] 3
    (gul_nil (mkField 50) plainMInst.inst)
    (by decide)
  simpa [crop_slug] using h

/-! ## Claim C2 -/

/-- Claim C2: when the first candidate collides in scope and the second is
free, the resolver returns the second candidate unsuffixed: phase 1 tries
every candidate unsuffixed before phase 2 ever suffixes the first one. -/
theorem claim_C2 (field : SlugField) (minst : MInst) (db : Db)
    (dl : List (String × Value)) (s1 s2 : Slug) (rest : List Slug) (fuel : Nat)
    (hgul : get_uniqueness_lookups field minst.inst field.uniqueWith = .ok dl)
    (h1 : slugTaken field db minst.pk dl (crop_slug field.maxLength s1) = true)
    (h2 : slugTaken field db minst.pk dl (crop_slug field.maxLength s2) = false) :
    generate_unique_slug field minst db (s1 :: s2 :: rest) fuel =
      .ok (some (crop_slug field.maxLength s2)) := by
  unfold generate_unique_slug
  rw [hgul]
  simp [phase1, h1, h2]

/-- Witness for C2: `title` collides with a stored record, `subtitle` is
free; the resolver returns `subtitle` with no suffix. -/
theorem claim_C2_witness :
    generate_unique_slug (mkField 50) plainMInst [⟨1, [(("slug"), Value.vstr (strChars ("title")))]⟩]
      [strChars ("title"), strChars ("subtitle")] 3 =
      .ok (some (strChars ("subtitle"))) := by
  have h := claim_C2 (mkField 50) plainMInst
    [⟨1, [(("slug"), Value.vstr (strChars ("title")))]⟩] []
    (strChars ("title")) (strChars ("subtitle")) [] 3
    (gul_nil (mkField 50) plainMInst.inst)
    (by decide) (by decide)
  simpa [crop_slug] using h

/-! ## Claim C8 -/

/-- Claim C8 (idempotence): re-running the resolver on a record whose slug
field already equals its stored value — the record's own row is in the
store, and it is excluded from the rival query by primary key — returns
that same value unchanged. -/
theorem claim_C8 (field : SlugField) (minst : MInst) (db : Db)
    (dl : List (String × Value)) (p : Nat) (s : Slug) (fuel : Nat)
    (hgul : get_uniqueness_lookups field minst.inst field.uniqueWith = .ok dl)
    (hpk : minst.pk = some p)
    (hstored : ∃ r ∈ db, r.pk = p ∧ lookupAttr r.attrs field.name = some (Value.vstr s))
    (hlen : s.length ≤ field.maxLength)
    (hriv : ∀ r ∈ db, matchesLookups (dictOfLookups dl field.name s) r = true → r.pk = p) :
    generate_unique_slug field minst db [s] fuel = .ok (some s) := by
  have hcrop : crop_slug field.maxLength s = s := by
    unfold crop_slug
    exact if_neg (Nat.not_lt.mpr hlen)
  have htaken : slugTaken field db minst.pk dl s = false := by
    unfold slugTaken rivalsExist
    rw [List.any_eq_false]
    intro r hr
    by_cases hm : matchesLookups (dictOfLookups dl field.name s) r = true
    · have := hriv r hr hm
      simp [hm, this, hpk]
    · simp only [Bool.not_eq_true] at hm
      simp [hm]
  unfold generate_unique_slug
  rw [hgul]
  simp [phase1, hcrop, htaken]

/-- Witness for C8: the record (pk 7) already stores slug `hello`; with
itself excluded, resolution returns `hello` unchanged. -/
theorem claim_C8_witness :
    generate_unique_slug (mkField 50) ⟨plainInst, some 7⟩
      [⟨7, [(("slug"), Value.vstr (strChars ("hello")))]⟩] [strChars ("hello")] 3 =
      .ok (some (strChars ("hello"))) := by
  exact claim_C8 (mkField 50) ⟨plainInst, some 7⟩
    [⟨7, [(("slug"), Value.vstr (strChars ("hello")))]⟩] [] 7 (strChars ("hello")) 3
    (gul_nil (mkField 50) plainInst)
    rfl
    ⟨⟨7, [(("slug"), Value.vstr (strChars ("hello")))]⟩, by simp, rfl, rfl⟩
    (by decide)
    (by decide)

/-! ## The suffix chain

The states of the `add_index` loop in closed form: `chainBase field b n` is
the running `original_slug` once the counter has reached `index = n`
(starting from the cropped candidate `b` at `index = 1`), and
`chainSlug field b n` the suffixed slug `original_slug + sep + str(index)`
generated for that index (meaningful for `n ≥ 2`, the first emitted
index). -/

/-- `original_slug` once the loop counter has reached `n` (utils.py lines
71-74 applied at each increment; `chainBase field b 1 = b`). -/
def chainBase (field : SlugField) (b : Slug) : Nat → Slug
  | 0 => b
  | n + 1 =>
    if n = 0 then b
    else
      if field.maxLength < (chainBase field b n).length +
          (field.indexSep.length + (natDigits (n + 1)).length) then
        pyTakeTo (chainBase field b n)
          ((field.maxLength : Int) -
            ((field.indexSep.length + (natDigits (n + 1)).length : Nat) : Int))
      else chainBase field b n

/-- The slug generated for index `n` (utils.py lines 77-78). -/
def chainSlug (field : SlugField) (b : Slug) (n : Nat) : Slug :=
  chainBase field b n ++ field.indexSep ++ natDigits n

/-- One step of `suffixSearch` from the chain state at index `n ≥ 1` moves
to the chain state at index `n + 1`. -/
theorem suffixSearch_step (field : SlugField) (db : Db) (pk : Option Nat)
    (dl : List (String × Value)) (b : Slug) (n fuel : Nat) (sl : Slug)
    (hn : 1 ≤ n)
    (htaken : slugTaken field db pk dl sl = true) :
    suffixSearch field db pk dl (chainBase field b n) sl n (fuel + 1) =
      suffixSearch field db pk dl (chainBase field b (n + 1)) (chainSlug field b (n + 1))
        (n + 1) fuel := by
  have hbase : chainBase field b (n + 1) =
      (if field.maxLength < (chainBase field b n).length +
          (field.indexSep.length + (natDigits (n + 1)).length) then
        pyTakeTo (chainBase field b n)
          ((field.maxLength : Int) -
            ((field.indexSep.length + (natDigits (n + 1)).length : Nat) : Int))
      else chainBase field b n) := by
    conv_lhs => rw [chainBase]
    rw [if_neg (by omega)]
  rw [suffixSearch, if_pos htaken, chainSlug, hbase]

/-- Running `suffixSearch` from the chain state at `n` when indices
`n ≤ i < N` all collide and `N` is free returns `chainSlug field b N`. -/
theorem suffixSearch_from (field : SlugField) (db : Db) (pk : Option Nat)
    (dl : List (String × Value)) (b : Slug) (N : Nat)
    (hfree : slugTaken field db pk dl (chainSlug field b N) = false)
    (htaken : ∀ i, 2 ≤ i → i < N → slugTaken field db pk dl (chainSlug field b i) = true) :
    ∀ gap n fuel, 2 ≤ n → n + gap = N → gap + 1 ≤ fuel →
      suffixSearch field db pk dl (chainBase field b n) (chainSlug field b n) n fuel =
        some (chainSlug field b N) := by
  intro gap
  induction gap with
  | zero =>
    intro n fuel hn hN hfuel
    obtain ⟨f, rfl⟩ : ∃ f, fuel = f + 1 := ⟨fuel - 1, by omega⟩
    have hnN : n = N := by omega
    subst hnN
    rw [suffixSearch, if_neg (by simp [hfree])]
  | succ gap ih =>
    intro n fuel hn hN hfuel
    obtain ⟨f, rfl⟩ : ∃ f, fuel = f + 1 := ⟨fuel - 1, by omega⟩
    rw [suffixSearch_step field db pk dl b n f _ (by omega)
      (htaken n hn (by omega))]
    exact ih (n + 1) f (by omega) (by omega) (by omega)

/-- Entering the suffix phase: from the cropped candidate `b` at
`index = 1`, with `b` itself taken, indices `2 ≤ i < N` taken and `N`
free, the loop returns `chainSlug field b N`. -/
theorem suffixSearch_entry (field : SlugField) (db : Db) (pk : Option Nat)
    (dl : List (String × Value)) (b : Slug) (N fuel : Nat)
    (hb : slugTaken field db pk dl b = true)
    (hfree : slugTaken field db pk dl (chainSlug field b N) = false)
    (htaken : ∀ i, 2 ≤ i → i < N → slugTaken field db pk dl (chainSlug field b i) = true)
    (hN : 2 ≤ N) (hfuel : N ≤ fuel) :
    suffixSearch field db pk dl b b 1 fuel = some (chainSlug field b N) := by
  obtain ⟨f, rfl⟩ : ∃ f, fuel = f + 1 := ⟨fuel - 1, by omega⟩
  have h1 : chainBase field b 1 = b := by rw [chainBase]; simp
  calc suffixSearch field db pk dl b b 1 (f + 1)
      = suffixSearch field db pk dl (chainBase field b 1) b 1 (f + 1) := by rw [h1]
    _ = suffixSearch field db pk dl (chainBase field b 2) (chainSlug field b 2) 2 f :=
        suffixSearch_step field db pk dl b 1 f b (by omega) hb
    _ = some (chainSlug field b N) :=
        suffixSearch_from field db pk dl b N hfree htaken (N - 2) 2 f (by omega)
          (by omega) (by omega)

/-- If every cropped candidate collides, phase 1 finds nothing. -/
theorem phase1_eq_none (field : SlugField) (db : Db) (pk : Option Nat)
    (dl : List (String × Value)) :
    ∀ slugs : List Slug,
      (∀ c ∈ slugs, slugTaken field db pk dl (crop_slug field.maxLength c) = true) →
      phase1 field db pk dl slugs = none := by
  intro slugs
  induction slugs with
  | nil => intro _; rfl
  | cons s rest ih =>
    intro h
    have hs := h s (by simp)
    simp only [phase1]
    rw [if_pos hs]
    exact ih (fun c hc => h c (by simp [hc]))

/-! ## Claim C3 -/

/-- Claim C3: when every candidate collides in the unsuffixed phase, the
resolver suffixes the first candidate: the first attempted suffix is
`base + index_sep + "2"` (`chainSlug _ _ 2`; the counter is pre-incremented
from 1, so `-1` is never emitted), each further collision moves from
`chainSlug _ _ i` to `chainSlug _ _ (i+1)` — the numeric suffix grows by
exactly one — and the first free `chainSlug _ _ N` is returned. -/
theorem claim_C3 (field : SlugField) (minst : MInst) (db : Db)
    (dl : List (String × Value)) (s : Slug) (rest : List Slug) (fuel N : Nat)
    (hgul : get_uniqueness_lookups field minst.inst field.uniqueWith = .ok dl)
    (hall : ∀ c ∈ s :: rest,
      slugTaken field db minst.pk dl (crop_slug field.maxLength c) = true)
    (hN : 2 ≤ N)
    (htaken : ∀ i, 2 ≤ i → i < N →
      slugTaken field db minst.pk dl (chainSlug field (crop_slug field.maxLength s) i) = true)
    (hfree : slugTaken field db minst.pk dl
      (chainSlug field (crop_slug field.maxLength s) N) = false)
    (hfuel : N ≤ fuel) :
    generate_unique_slug field minst db (s :: rest) fuel =
      .ok (some (chainSlug field (crop_slug field.maxLength s) N)) := by
  have hp2 : phase2 field db minst.pk dl (s :: rest) 1 fuel =
      some (chainSlug field (crop_slug field.maxLength s) N) := by
    unfold phase2
    exact suffixSearch_entry field db minst.pk dl (crop_slug field.maxLength s) N fuel
      (hall s (by simp)) hfree htaken hN hfuel
  unfold generate_unique_slug
  rw [hgul]
  simp only [phase1_eq_none field db minst.pk dl (s :: rest) hall, hp2]

/-- The spec scenario for C3: single candidate `foo`, a rival `foo` in
store, `foo-2` free; the resolver returns `foo-2` — the first suffix is
`-2`, never `-1`. -/
theorem claim_C3_witness :
    generate_unique_slug (mkField 50) plainMInst
      [⟨1, [(("slug"), Value.vstr (strChars ("foo")))]⟩] [strChars ("foo")] 3 =
      .ok (some (strChars ("foo-2"))) := by
  have h := claim_C3 (mkField 50) plainMInst
    [⟨1, [(("slug"), Value.vstr (strChars ("foo")))]⟩] []
    (strChars ("foo")) [] 3 2
    (gul_nil (mkField 50) plainMInst.inst)
    (by decide) (by omega)
    (by intro i h2 hlt; omega)
    (by decide) (by omega)
  have hc : chainSlug (mkField 50) (crop_slug (mkField 50).maxLength (strChars ("foo"))) 2 =
      strChars ("foo-2") := by decide
  rw [hc] at h
  exact h

/-! ## Claim C4 -/

/-- A non-negative Python prefix slice keeps at most `k` characters. -/
theorem pyTakeTo_length_le (s : Slug) (k : Int) (hk : 0 ≤ k) :
    (pyTakeTo s k).length ≤ k.toNat := by
  unfold pyTakeTo
  rw [if_neg (by omega)]
  simp [List.length_take]

/-- Both branches of a Python prefix slice are a `List.take`. -/
theorem pyTakeTo_eq_take (s : Slug) (k : Int) : ∃ j, pyTakeTo s k = s.take j := by
  unfold pyTakeTo
  split
  · exact ⟨s.length - (-k).toNat, rfl⟩
  · exact ⟨k.toNat, rfl⟩

/-- When the separator plus the digits of index `n` fit in `max_length`,
the suffixed slug for index `n` fits as well (utils.py lines 70-78). -/
theorem chainSlug_length_le (field : SlugField) (b : Slug) (n : Nat)
    (hn : 2 ≤ n)
    (htail : field.indexSep.length + (natDigits n).length ≤ field.maxLength) :
    (chainSlug field b n).length ≤ field.maxLength := by
  obtain ⟨m, rfl⟩ : ∃ m, n = m + 1 := ⟨n - 1, by omega⟩
  unfold chainSlug
  rw [chainBase, if_neg (by omega : ¬ m = 0)]
  simp only [List.length_append]
  split
  · have hle := pyTakeTo_length_le (chainBase field b m)
      ((field.maxLength : Int) - (field.indexSep.length + (natDigits (m + 1)).length : Nat))
      (by omega)
    omega
  · omega

/-- Any successful result of the suffix loop started at index `n` from the
matching chain state is the initial slug or a chain slug of a strictly
larger index reached within the fuel bound. -/
theorem suffixSearch_shape (field : SlugField) (db : Db) (pk : Option Nat)
    (dl : List (String × Value)) (b : Slug) :
    ∀ fuel n sl t, 1 ≤ n →
      suffixSearch field db pk dl (chainBase field b n) sl n fuel = some t →
      t = sl ∨ ∃ m, n < m ∧ m ≤ n + fuel ∧ t = chainSlug field b m := by
  intro fuel
  induction fuel with
  | zero => intro n sl t _ h; cases h
  | succ f ih =>
    intro n sl t hn h
    by_cases htk : slugTaken field db pk dl sl = true
    · rw [suffixSearch_step field db pk dl b n f sl hn htk] at h
      rcases ih (n + 1) (chainSlug field b (n + 1)) t (by omega) h with h1 | ⟨m, hm1, hm2, hm3⟩
      · exact Or.inr ⟨n + 1, by omega, by omega, h1⟩
      · exact Or.inr ⟨m, by omega, by omega, hm3⟩
    · rw [suffixSearch, if_neg htk] at h
      exact Or.inl (Option.some_injective _ h).symm

/-- Every slug returned by phase 1 is a cropped candidate, hence fits. -/
theorem phase1_length_le (field : SlugField) (db : Db) (pk : Option Nat)
    (dl : List (String × Value)) :
    ∀ slugs t, phase1 field db pk dl slugs = some t → t.length ≤ field.maxLength := by
  intro slugs
  induction slugs with
  | nil => intro t h; cases h
  | cons s rest ih =>
    intro t h
    simp only [phase1] at h
    by_cases htk : slugTaken field db pk dl (crop_slug field.maxLength s) = true
    · rw [if_pos htk] at h
      exact ih t h
    · rw [if_neg htk] at h
      rw [← Option.some_injective _ h]
      exact crop_slug_length_le field.maxLength s

/-- Counterexample to claim C4 as stated: with `max_length = 1` the
suffix tail `-2` does not fit, Python's negative slice
`original_slug[:1 - 2]` empties the base, and the resolver returns `-2`,
a slug of length 2 > `max_length`. -/
theorem claim_C4_counterexample :
    generate_unique_slug (mkField 1) plainMInst
      [⟨1, [(("slug"), Value.vstr (strChars ("a")))]⟩] [strChars ("ab")] 3 =
      .ok (some (strChars ("-2"))) ∧
    ¬ ((strChars ("-2")).length ≤ (mkField 1).maxLength) := by
  constructor
  · have h : get_uniqueness_lookups (mkField 1) plainMInst.inst (mkField 1).uniqueWith =
        .ok [] := gul_nil _ _
    unfold generate_unique_slug
    rw [h]
    rfl
  · decide

/-- Claim C4, amended: *provided the separator plus the suffix digits fit
within `max_length`* (true for every realistic configuration, and exactly
what the counterexample violates), every slug the resolver returns has
length at most `max_length`; moreover truncation removes characters only
from the base (`chainBase` is always an initial segment of the cropped
candidate) and the separator and all suffix digits are fully present in
every suffixed slug. -/
theorem claim_C4_amended (field : SlugField) (minst : MInst) (db : Db)
    (slugs : List Slug) (fuel : Nat) (t b : Slug) (n : Nat)
    (hres : generate_unique_slug field minst db slugs fuel = .ok (some t))
    (htail : ∀ m, m ≤ 1 + fuel → 2 ≤ m →
      field.indexSep.length + (natDigits m).length ≤ field.maxLength) :
    t.length ≤ field.maxLength ∧
    (∃ u, chainBase field b n ++ u = b) ∧
    chainSlug field b n = chainBase field b n ++ field.indexSep ++ natDigits n := by
  refine ⟨?_, ?_, rfl⟩
  · unfold generate_unique_slug at hres
    cases hg : get_uniqueness_lookups field minst.inst field.uniqueWith with
    | error e => simp [hg] at hres
    | ok dl =>
      simp only [hg] at hres
      cases hp : phase1 field db minst.pk dl slugs with
      | some s =>
        simp only [hp, Except.ok.injEq, Option.some.injEq] at hres
        rw [← hres]
        exact phase1_length_le field db minst.pk dl slugs s hp
      | none =>
        simp only [hp, Except.ok.injEq] at hres
        cases slugs with
        | nil => cases hres
        | cons s rest =>
          have h1 : chainBase field (crop_slug field.maxLength s) 1 =
              crop_slug field.maxLength s := by rw [chainBase]; simp
          have hss : suffixSearch field db minst.pk dl
              (chainBase field (crop_slug field.maxLength s) 1)
              (crop_slug field.maxLength s) 1 fuel = some t := by
            rw [h1]; exact hres
          rcases suffixSearch_shape field db minst.pk dl (crop_slug field.maxLength s)
              fuel 1 (crop_slug field.maxLength s) t (by omega) hss with
            h2 | ⟨m, hm1, hm2, hm3⟩
          · rw [h2]; exact crop_slug_length_le field.maxLength s
          · rw [hm3]
            exact chainSlug_length_le field (crop_slug field.maxLength s) m (by omega)
              (htail m (by omega) (by omega))
  · induction n with
    | zero => exact ⟨[], by simp [chainBase]⟩
    | succ m ih =>
      rw [chainBase]
      by_cases hm : m = 0
      · rw [if_pos hm]; exact ⟨[], by simp⟩
      · rw [if_neg hm]
        obtain ⟨u, hu⟩ := ih
        split
        · obtain ⟨j, hj⟩ := pyTakeTo_eq_take (chainBase field b m)
            ((field.maxLength : Int) -
              ((field.indexSep.length + (natDigits (m + 1)).length : Nat) : Int))
          rw [hj]
          exact ⟨(chainBase field b m).drop j ++ u, by
            rw [← List.append_assoc, List.take_append_drop, hu]⟩
        · exact ⟨u, hu⟩

/-- The spec truncation scenario as witness for amended C4: candidate
`abcdefghij`, `max_length = 8`, the cropped `abcdefgh` and `abcdef-2`
collide, `abcdef-3` is free; the result `abcdef-3` has length exactly 8
and `chainBase` at index 3 (`abcdef`) is an initial segment of the
cropped candidate. -/
theorem claim_C4_witness :
    (strChars ("abcdef-3")).length ≤ (mkField 8).maxLength ∧
    (∃ u, chainBase (mkField 8) (strChars ("abcdefgh")) 3 ++ u = strChars ("abcdefgh")) ∧
    chainSlug (mkField 8) (strChars ("abcdefgh")) 3 =
      chainBase (mkField 8) (strChars ("abcdefgh")) 3 ++ (mkField 8).indexSep ++ natDigits 3 := by
  refine claim_C4_amended (mkField 8) plainMInst
    [⟨1, [(("slug"), Value.vstr (strChars ("abcdefgh")))]⟩,
     ⟨2, [(("slug"), Value.vstr (strChars ("abcdef-2")))]⟩]
    [strChars ("abcdefghij")] 3
    (strChars ("abcdef-3")) (strChars ("abcdefgh")) 3 ?_ ?_
  · have h : get_uniqueness_lookups (mkField 8) plainMInst.inst (mkField 8).uniqueWith =
        .ok [] := gul_nil _ _
    unfold generate_unique_slug
    rw [h]
    rfl
  · decide

/-! ## Claim C5 -/

/-- Record with an optional (`blank`) empty `author`, plus a populated
`category`. -/
def c5Inst : Inst :=
  ⟨[(("slug"), ⟨0, false, false⟩), (("author"), ⟨1, true, false⟩),
    (("category"), ⟨2, false, false⟩)],
   [(("slug"), Value.vstr []), (("author"), Value.vstr []),
    (("category"), Value.vstr (strChars ("news")))]⟩

/-- Counterexample to claim C5 as stated: with
`unique_with = ("author", "category")`, `author` empty and optional, and
`category` populated, the `break` at utils.py line 109 ends the whole loop,
so NO lookups are emitted — the remaining `category` path is dropped, not
resolved, even though its value `news` is present. -/
theorem claim_C5_counterexample :
    get_uniqueness_lookups (mkField 50) c5Inst [(("author"), []), (("category"), [])] =
      .ok [] ∧
    lookupAttr c5Inst.attrs ("category") = some (Value.vstr (strChars ("news"))) := by
  constructor
  · have hf : lookupField c5Inst.fields ("author") = some ⟨1, true, false⟩ := rfl
    have hv : lookupAttr c5Inst.attrs ("author") = some (Value.vstr []) := rfl
    rw [get_uniqueness_lookups.eq_def]
    simp only [hf, hv,
      if_neg (show ¬ (mkField 50).info.fid = (FieldInfo.mk 1 true false).fid by decide)]
    rfl
  · rfl

/-- Claim C5, amended: when a referenced scope attribute is empty and
declared optional, that scope constraint is dropped with no lookup emitted
and no error raised — but scope-path processing stops there (`break`):
lookups of earlier paths are kept, while every remaining path in the list
is also dropped, whatever it is. -/
theorem claim_C5_amended (field : SlugField) (inst : Inst) (fname : String)
    (inner : List String) (rest : List Path) (fi : FieldInfo) (v : Value)
    (hf : lookupField inst.fields fname = some fi)
    (hself : field.info.fid ≠ fi.fid)
    (hv : lookupAttr inst.attrs fname = some v)
    (hfalsy : truthy v = false)
    (hblank : fi.blank = true) :
    get_uniqueness_lookups field inst ((fname, inner) :: rest) = .ok [] := by
  rw [get_uniqueness_lookups.eq_def]
  simp [hf, hv, hfalsy, hblank, if_neg hself]

/-- Witness for amended C5: `unique_with = ("author", "category")` with
`author` empty and optional emits zero lookups and no error. -/
theorem claim_C5_witness :
    get_uniqueness_lookups (mkField 50) c5Inst [(("author"), []), (("category"), [])] =
      .ok [] :=
  claim_C5_amended (mkField 50) c5Inst ("author") [] [(("category"), [])]
    ⟨1, true, false⟩ (Value.vstr []) rfl (by decide) rfl rfl rfl

/-! ## Claim C6 -/

/-- Claim C6: a `unique_with` path targeting a date-valued attribute
defaults to day granularity when no suffix is given, and emits one
`(field_name__part, value.part)` lookup for each granularity level from
`year` up to the requested level. -/
theorem claim_C6 (field : SlugField) (inst : Inst) (fname : String)
    (fi : FieldInfo) (y m d : Int)
    (hf : lookupField inst.fields fname = some fi)
    (hself : field.info.fid ≠ fi.fid)
    (hdate : fi.isDate = true)
    (hv : lookupAttr inst.attrs fname = some (Value.vdate y m d)) :
    get_uniqueness_lookups field inst [(fname, [])] =
      .ok [(fname ++ "__" ++ ("year"), Value.vint y), (fname ++ "__" ++ ("month"), Value.vint m),
           (fname ++ "__" ++ ("day"), Value.vint d)] ∧
    get_uniqueness_lookups field inst [(fname, [("year")])] =
      .ok [(fname ++ "__" ++ ("year"), Value.vint y)] ∧
    get_uniqueness_lookups field inst [(fname, [("month")])] =
      .ok [(fname ++ "__" ++ ("year"), Value.vint y), (fname ++ "__" ++ ("month"), Value.vint m)] ∧
    get_uniqueness_lookups field inst [(fname, [("day")])] =
      .ok [(fname ++ "__" ++ ("year"), Value.vint y), (fname ++ "__" ++ ("month"), Value.vint m),
           (fname ++ "__" ++ ("day"), Value.vint d)] := by
  refine ⟨?_, ?_, ?_, ?_⟩ <;>
    simp [get_uniqueness_lookups, hf, hv, hdate, if_neg hself, truthy, idxOf, dateParts,
      dateLookups, innerFalsy, consLookups,
      (show ("year" : String).isEmpty = false from rfl),
      (show ("month" : String).isEmpty = false from rfl),
      (show ("day" : String).isEmpty = false from rfl)]

/-- The spec scenario for C6: `unique_with = ("pub_date__month",)` on a
record with `pub_date = 2024-03-15` emits exactly `pub_date__year = 2024`
and `pub_date__month = 3`. -/
theorem claim_C6_witness :
    get_uniqueness_lookups (mkField 50)
      ⟨[(("slug"), ⟨0, false, false⟩), (("pub_date"), ⟨1, false, true⟩)],
       [(("slug"), Value.vstr []), (("pub_date"), Value.vdate 2024 3 15)]⟩
      [(("pub_date"), [("month")])] =
      .ok [(("pub_date__year"), Value.vint 2024), (("pub_date__month"), Value.vint 3)] := by
  have h := claim_C6 (mkField 50)
    ⟨[(("slug"), ⟨0, false, false⟩), (("pub_date"), ⟨1, false, true⟩)],
     [(("slug"), Value.vstr []), (("pub_date"), Value.vdate 2024 3 15)]⟩
    ("pub_date") ⟨1, false, true⟩ 2024 3 15 rfl (by decide) rfl rfl
  exact h.2.2.1

/-! ## Claim C7: error conditions of scope-lookup resolution -/

/-- Did the computation raise (`ValueError` and friends)? -/
def isErr {α : Type} : Except String α → Bool
  | .error _ => true
  | .ok _ => false

/-- A truthy value stored under a date-valued field must be a date object
(otherwise `getattr(value, part)` would raise for reasons outside the
claim's enumeration). -/
def dateOK (fi : FieldInfo) (v : Value) : Bool :=
  if fi.isDate && truthy v then
    match v with
    | .vdate _ _ _ => true
    | _ => false
  else true

/-- Every schema field resolves to an attribute whose value is acceptable
for the field's kind. -/
def instFieldsOK (fields : List (String × FieldInfo)) (attrs : List (String × Value)) : Bool :=
  fields.all (fun p =>
    match lookupAttr attrs p.1 with
    | none => false
    | some v => dateOK p.2 v)

mutual

/-- Well-formedness of a value: nested records are themselves well-formed
model instances. -/
def valueWF : Value → Bool
  | .vrec rf ra => instFieldsOK rf ra && attrsWF ra
  | _ => true

/-- Well-formedness of every value in an attribute dictionary. -/
def attrsWF : List (String × Value) → Bool
  | [] => true
  | (_, v) :: rest => valueWF v && attrsWF rest

end

/-- A faithful model instance: every schema field has an attribute value,
truthy date-field values are date objects, recursively through related
records. Any Django model instance satisfies this. -/
def instWF (inst : Inst) : Bool :=
  instFieldsOK inst.fields inst.attrs && attrsWF inst.attrs

/-- Outcome of the head checks shared by every scope-path shape. -/
inductive HeadCheck where
  | bad : HeadCheck
  | dropped : HeadCheck
  | missingAttr : HeadCheck
  | value (fi : FieldInfo) (v : Value) : HeadCheck

/-- Modelled from the claim: the head checks of one scope path — the path
is bad when the named attribute does not exist on the record's schema,
when it resolves to the slug field itself, or when the referenced
attribute is empty and not optional; an empty optional attribute drops the
constraint; otherwise the found field and value classify the tail.  (A
missing attribute value on an existing schema field cannot occur on
well-formed records.) -/
def headCheck (field : SlugField) (inst : Inst) (fname : String) : HeadCheck :=
  match lookupField inst.fields fname with
  | none => .bad
  | some fi =>
    if field.info.fid = fi.fid then .bad
    else
      match lookupAttr inst.attrs fname with
      | none => .missingAttr
      | some v =>
        if truthy v = false then
          if fi.blank then .dropped else .bad
        else .value fi v

/-- Modelled from the claim's enumeration: a `unique_with` path
`fname__inner` is invalid on a record iff its head checks fail (missing
attribute, self-reference, empty non-optional value), or a date-valued
attribute is given a granularity token other than `year`/`month`/`day` or
more than one level of nesting, or a non-date attribute with a nested
lookup holds a value that is not record-like — applied recursively through
nested paths.  A falsy remainder (no `__`, or a path ending in `__`) is
never a granularity token or a nested lookup: the source treats it as
absent (day default / plain lookup), so such a path is valid. -/
def specInvalidPath (field : SlugField) (inst : Inst) (fname : String) :
    List String → Bool
  | [] =>
    match headCheck field inst fname with
    | .bad => true
    | _ => false
  | ih :: it =>
    match headCheck field inst fname with
    | .bad => true
    | .dropped => false
    | .missingAttr => false
    | .value fi v =>
      if innerFalsy (ih :: it) then false
      else if fi.isDate then
        match it with
        | [] => if ih ∈ dateParts then false else true
        | _ :: _ => true
      else
        match v with
        | .vrec rf ra => specInvalidPath field ⟨rf, ra⟩ ih it
        | _ => true

/-- The path is dropped as empty-and-optional: this is the `break` case of
utils.py line 109, which ends path processing without error. -/
def droppedOptional (field : SlugField) (inst : Inst) (fname : String) : Bool :=
  match headCheck field inst fname with
  | .dropped => true
  | _ => false

/-- Modelled from the claim (amended): resolution fails iff, scanning the
`unique_with` paths left to right, an invalid path is reached before any
empty-optional path stops the scan. -/
def specListInvalid (field : SlugField) (inst : Inst) : List Path → Bool
  | [] => false
  | (fname, inner) :: rest =>
    if specInvalidPath field inst fname inner then true
    else if droppedOptional field inst fname then false
    else specListInvalid field inst rest

/-- A path whose head checks fail is invalid whatever its tail. -/
theorem specInvalidPath_bad (field : SlugField) (inst : Inst) (fname : String)
    (inner : List String) (h : headCheck field inst fname = .bad) :
    specInvalidPath field inst fname inner = true := by
  cases inner <;> simp [specInvalidPath, h]

/-- A dropped path is not invalid, whatever its tail. -/
theorem specInvalidPath_dropped (field : SlugField) (inst : Inst) (fname : String)
    (inner : List String) (h : headCheck field inst fname = .dropped) :
    specInvalidPath field inst fname inner = false := by
  cases inner <;> simp [specInvalidPath, h]

/-- A path with sound head checks and a falsy remainder (no `__`, or a
trailing `__`) is valid: day default for dates, plain lookup otherwise. -/
theorem specInvalidPath_falsy (field : SlugField) (inst : Inst) (fname : String)
    (inner : List String) (fi : FieldInfo) (v : Value)
    (hhc : headCheck field inst fname = .value fi v)
    (hfal : innerFalsy inner = true) :
    specInvalidPath field inst fname inner = false := by
  cases inner with
  | nil => simp [specInvalidPath, hhc]
  | cons ih it => simp [specInvalidPath, hhc, hfal]

/-- A found schema field is one of the schema's entries. -/
theorem lookupField_mem (fields : List (String × FieldInfo)) (n : String) (fi : FieldInfo)
    (h : lookupField fields n = some fi) : (n, fi) ∈ fields := by
  induction fields with
  | nil => cases h
  | cons p rest ih =>
    obtain ⟨k, fi'⟩ := p
    rw [lookupField] at h
    by_cases hk : k = n
    · rw [if_pos hk] at h
      obtain rfl := Option.some_injective _ h
      simp [hk]
    · rw [if_neg hk] at h
      exact List.mem_cons_of_mem _ (ih h)

/-- On a schema-complete record, every found schema field has an
attribute value, and that value is acceptable for the field's kind. -/
theorem instFieldsOK_attr (fields : List (String × FieldInfo))
    (attrs : List (String × Value)) (n : String) (fi : FieldInfo)
    (hok : instFieldsOK fields attrs = true)
    (h : lookupField fields n = some fi) :
    ∃ v, lookupAttr attrs n = some v ∧ dateOK fi v = true := by
  have hmem := lookupField_mem fields n fi h
  rw [instFieldsOK, List.all_eq_true] at hok
  have := hok (n, fi) hmem
  cases hv : lookupAttr attrs n with
  | none => rw [hv] at this; cases this
  | some v => rw [hv] at this; exact ⟨v, rfl, this⟩

/-- Looked-up attribute values of a well-formed dictionary are well-formed. -/
theorem attrsWF_lookup (attrs : List (String × Value)) (n : String) (v : Value)
    (hwf : attrsWF attrs = true) (h : lookupAttr attrs n = some v) :
    valueWF v = true := by
  induction attrs with
  | nil => cases h
  | cons p rest ih =>
    obtain ⟨k, w⟩ := p
    rw [attrsWF] at hwf
    simp only [Bool.and_eq_true] at hwf
    rw [lookupAttr] at h
    by_cases hk : k = n
    · rw [if_pos hk] at h
      obtain rfl := Option.some_injective _ h
      exact hwf.1
    · rw [if_neg hk] at h
      exact ih hwf.2 h

/-- `list.index` fails exactly on absent elements. -/
theorem idxOf_eq_none (l : List String) (x : String) :
    idxOf l x = none ↔ x ∉ l := by
  induction l with
  | nil => simp [idxOf]
  | cons a rest ihl =>
    rw [idxOf]
    by_cases ha : a = x
    · simp [ha]
    · rw [if_neg ha]
      simp [Option.map_eq_none, ihl, Ne.symm ha]

/-- A single-path scan fails exactly on an invalid path. -/
theorem specListInvalid_singleton (field : SlugField) (inst : Inst)
    (fname : String) (inner : List String) :
    specListInvalid field inst [(fname, inner)] =
      specInvalidPath field inst fname inner := by
  rw [specListInvalid]
  by_cases h : specInvalidPath field inst fname inner = true
  · simp [h]
  · simp only [Bool.not_eq_true] at h
    simp [h, specListInvalid]

/-- Core equivalence for C7: on well-formed records, scope-lookup
resolution raises exactly when the left-to-right scan hits an invalid
path before an empty-optional path ends the scan. -/
theorem gul_err_spec (field : SlugField) :
    ∀ k uw inst, pathsSize uw ≤ k → instWF inst = true →
      isErr (get_uniqueness_lookups field inst uw) =
        specListInvalid field inst uw := by
  intro k
  induction k with
  | zero =>
    intro uw inst hk _
    cases uw with
    | nil => simp [get_uniqueness_lookups, isErr, specListInvalid]
    | cons p rest =>
      exfalso
      obtain ⟨fname, inner⟩ := p
      simp [pathsSize, pathSize] at hk
  | succ k ih =>
    intro uw inst hk hwf
    cases uw with
    | nil => simp [get_uniqueness_lookups, isErr, specListInvalid]
    | cons p rest =>
      obtain ⟨fname, inner⟩ := p
      have hrest : pathsSize rest ≤ k := by
        simp only [pathsSize, pathSize] at hk
        omega
      have hwf' := hwf
      rw [instWF, Bool.and_eq_true] at hwf'
      rw [get_uniqueness_lookups.eq_def]
      simp only [specListInvalid]
      cases hfld : lookupField inst.fields fname with
      | none =>
        have hhc : headCheck field inst fname = .bad := by simp [headCheck, hfld]
        simp [hfld, specInvalidPath_bad field inst fname inner hhc, isErr]
      | some fi =>
        by_cases hself : field.info.fid = fi.fid
        · have hhc : headCheck field inst fname = .bad := by
            simp [headCheck, hfld, hself]
          simp [hfld, hself, specInvalidPath_bad field inst fname inner hhc, isErr]
        · obtain ⟨v, hv, hdok⟩ :=
            instFieldsOK_attr inst.fields inst.attrs fname fi hwf'.1 hfld
          simp only [hfld, hv, if_neg hself]
          cases htr : truthy v with
          | false =>
            cases hbl : fi.blank with
            | true =>
              have hhc : headCheck field inst fname = .dropped := by
                simp [headCheck, hfld, if_neg hself, hv, htr, hbl]
              simp [specInvalidPath_dropped field inst fname inner hhc, droppedOptional,
                hhc, htr, hbl, isErr]
            | false =>
              have hhc : headCheck field inst fname = .bad := by
                simp [headCheck, hfld, if_neg hself, hv, htr, hbl]
              simp [specInvalidPath_bad field inst fname inner hhc, htr, hbl, isErr]
          | true =>
            have hhc : headCheck field inst fname = .value fi v := by
              simp [headCheck, hfld, if_neg hself, hv, htr]
            have hdrop : droppedOptional field inst fname = false := by
              simp [droppedOptional, hhc]
            by_cases hfal : innerFalsy inner = true
            · have hsp := specInvalidPath_falsy field inst fname inner fi v hhc hfal
              rw [← ih rest inst hrest hwf]
              cases hdt : fi.isDate with
              | true =>
                obtain ⟨y, m, d, rfl⟩ : ∃ y m d, v = Value.vdate y m d := by
                  cases v with
                  | vdate y m d => exact ⟨y, m, d, rfl⟩
                  | vnone => simp [truthy] at htr
                  | vstr s => simp [dateOK, hdt, htr] at hdok
                  | vint n => simp [dateOK, hdt, htr] at hdok
                  | vrec rf ra => simp [dateOK, hdt, htr] at hdok
                  | vfun r => simp [dateOK, hdt, htr] at hdok
                simp only [hsp, hdrop, htr, hdt, hfal, if_true, idxOf, dateParts,
                  dateLookups]
                cases hr : get_uniqueness_lookups field inst rest <;>
                  simp [hr, consLookups, isErr]
              | false =>
                simp only [hsp, hdrop, htr, hdt, hfal, if_true]
                cases inner with
                | nil =>
                  cases hr : get_uniqueness_lookups field inst rest <;>
                    simp [hr, consLookups, isErr]
                | cons ih' it' =>
                  cases hr : get_uniqueness_lookups field inst rest <;>
                    simp [hr, hfal, consLookups, isErr]
            · rw [Bool.not_eq_true] at hfal
              cases hdt : fi.isDate with
              | true =>
                obtain ⟨y, m, d, rfl⟩ : ∃ y m d, v = Value.vdate y m d := by
                  cases v with
                  | vdate y m d => exact ⟨y, m, d, rfl⟩
                  | vnone => simp [truthy] at htr
                  | vstr s => simp [dateOK, hdt, htr] at hdok
                  | vint n => simp [dateOK, hdt, htr] at hdok
                  | vrec rf ra => simp [dateOK, hdt, htr] at hdok
                  | vfun r => simp [dateOK, hdt, htr] at hdok
                cases inner with
                | nil => simp [innerFalsy] at hfal
                | cons g gs =>
                  cases gs with
                  | nil =>
                    have hsp : specInvalidPath field inst fname [g] =
                        (if g ∈ dateParts then false else true) := by
                      simp [specInvalidPath, hhc, hdt, hfal]
                    cases hidx : idxOf dateParts g with
                    | none =>
                      have hmem : ¬ g ∈ dateParts := (idxOf_eq_none dateParts g).mp hidx
                      simp [hsp, hidx, hmem, htr, hdt, hfal, isErr]
                    | some i =>
                      have hmem : g ∈ dateParts := by
                        by_contra hmem
                        rw [(idxOf_eq_none dateParts g).mpr hmem] at hidx
                        cases hidx
                      rw [← ih rest inst hrest hwf]
                      simp only [hsp, hdrop, htr, hdt, hfal, hidx, if_pos hmem,
                        dateLookups]
                      cases hr : get_uniqueness_lookups field inst rest <;>
                        simp [hr, hidx, consLookups, isErr]
                  | cons g2 gs2 =>
                    have hsp : specInvalidPath field inst fname (g :: g2 :: gs2) = true := by
                      simp [specInvalidPath, hhc, hdt, hfal]
                    simp [hsp, htr, hdt, hfal, isErr]
              | false =>
                cases inner with
                | nil => simp [innerFalsy] at hfal
                | cons ih' it' =>
                  cases v with
                  | vnone => simp [truthy] at htr
                  | vstr s =>
                    have hsp : specInvalidPath field inst fname (ih' :: it') = true := by
                      simp [specInvalidPath, hhc, hdt, hfal]
                    simp [hsp, htr, hdt, hfal, isErr]
                  | vint n =>
                    have hsp : specInvalidPath field inst fname (ih' :: it') = true := by
                      simp [specInvalidPath, hhc, hdt, hfal]
                    simp [hsp, htr, hdt, hfal, isErr]
                  | vdate y m d =>
                    have hsp : specInvalidPath field inst fname (ih' :: it') = true := by
                      simp [specInvalidPath, hhc, hdt, hfal]
                    simp [hsp, htr, hdt, hfal, isErr]
                  | vfun r =>
                    have hsp : specInvalidPath field inst fname (ih' :: it') = true := by
                      simp [specInvalidPath, hhc, hdt, hfal]
                    simp [hsp, htr, hdt, hfal, isErr]
                  | vrec rf ra =>
                    have hwfN : instWF ⟨rf, ra⟩ = true := by
                      have hval := attrsWF_lookup inst.attrs fname _ hwf'.2 hv
                      rw [valueWF] at hval
                      exact hval
                    have hsizeN : pathsSize [(ih', it')] ≤ k := by
                      simp only [pathsSize, pathSize, List.length_cons] at hk ⊢
                      omega
                    have hIN := ih [(ih', it')] ⟨rf, ra⟩ hsizeN hwfN
                    rw [specListInvalid_singleton] at hIN
                    have hsp : specInvalidPath field inst fname (ih' :: it') =
                        specInvalidPath field ⟨rf, ra⟩ ih' it' := by
                      simp [specInvalidPath, hhc, hdt, hfal]
                    rw [← ih rest inst hrest hwf]
                    simp only [hsp, hdrop, htr, hdt, hfal, ← hIN]
                    cases hN : get_uniqueness_lookups field ⟨rf, ra⟩ [(ih', it')] with
                    | error e => simp [hN, isErr]
                    | ok ip =>
                      cases hr : get_uniqueness_lookups field inst rest <;>
                        simp [hN, hr, consLookups, isErr]

/-- Counterexample to claim C7 as stated: resolution does NOT raise for
every invalid path — with `unique_with = ("author", "missing")`, `author`
empty and optional, the `break` stops the scan and the later path
`missing`, whose attribute does not exist on the schema, is never
examined: no error is raised. -/
theorem claim_C7_counterexample :
    isErr (get_uniqueness_lookups (mkField 50) c5Inst
      [(("author"), []), (("missing"), [])]) = false ∧
    lookupField c5Inst.fields ("missing") = none := by
  constructor
  · have hf : lookupField c5Inst.fields ("author") = some ⟨1, true, false⟩ := rfl
    have hv : lookupAttr c5Inst.attrs ("author") = some (Value.vstr []) := rfl
    rw [get_uniqueness_lookups.eq_def]
    simp only [hf, hv,
      if_neg (show ¬ (mkField 50).info.fid = (FieldInfo.mk 1 true false).fid by decide)]
    rfl
  · rfl

/-- Claim C7, amended: on well-formed records, scope-lookup resolution
raises exactly when an invalid `unique_with` path (per the claim's
enumeration — unresolvable attribute, self-reference, empty non-optional
attribute, bad date-granularity token or excess date nesting, nested
lookup on a non-record value, recursively) is reached in the left-to-right
scan *before any empty-optional path stops the scan*; and any such error
propagates out of `generate_unique_slug` before any rival query is made. -/
theorem claim_C7_amended (field : SlugField) (inst : Inst) (uw : List Path)
    (minst : MInst) (db : Db) (slugs : List Slug) (fuel : Nat)
    (hwf : instWF inst = true) :
    isErr (get_uniqueness_lookups field inst uw) = specListInvalid field inst uw ∧
    (isErr (get_uniqueness_lookups field minst.inst field.uniqueWith) = true →
      isErr (generate_unique_slug field minst db slugs fuel) = true) := by
  constructor
  · exact gul_err_spec field (pathsSize uw) uw inst le_rfl hwf
  · intro h
    cases hg : get_uniqueness_lookups field minst.inst field.uniqueWith with
    | error e =>
      unfold generate_unique_slug
      simp [hg, isErr]
    | ok dl =>
      rw [hg] at h
      simp [isErr] at h

/-- A slug field whose `unique_with` names an attribute absent from the
schema of `c5Inst`. -/
def c7Field : SlugField :=
  ⟨("slug"), ⟨0, false, false⟩, 50, strChars ("-"), [(("missing"), [])], true⟩

/-- Witness for amended C7: a `unique_with` path naming a missing
attribute is flagged invalid, resolution raises, and the error propagates
out of `generate_unique_slug`. -/
theorem claim_C7_witness :
    (isErr (get_uniqueness_lookups c7Field c5Inst [(("missing"), [])]) =
      specListInvalid c7Field c5Inst [(("missing"), [])]) ∧
    (isErr (get_uniqueness_lookups c7Field c5Inst c7Field.uniqueWith) = true →
      isErr (generate_unique_slug c7Field ⟨c5Inst, none⟩ [] [] 1) = true) :=
  claim_C7_amended c7Field c5Inst [(("missing"), [])] ⟨c5Inst, none⟩ [] [] 1
    (by simp [instWF, instFieldsOK, attrsWF, valueWF, dateOK, c5Inst, lookupAttr, truthy])

/-- A record with a date-valued `pub_date` and a populated `category`,
for exercising paths that end in `__` (empty remainder). -/
def trailInst : Inst :=
  ⟨[(("slug"), ⟨0, false, false⟩), (("pub_date"), ⟨1, false, true⟩),
    (("category"), ⟨2, false, false⟩)],
   [(("slug"), Value.vstr []), (("pub_date"), Value.vdate 2024 3 15),
    (("category"), Value.vstr (strChars ("news")))]⟩

/-- The path `pub_date__` (empty remainder, a falsy `inner_lookup`)
does not raise: utils.py line 118 defaults it to day granularity. -/
theorem gul_trailing_on_date :
    get_uniqueness_lookups (mkField 50) trailInst [(("pub_date"), [("")])] =
      .ok [(("pub_date__year"), Value.vint 2024), (("pub_date__month"), Value.vint 3),
           (("pub_date__day"), Value.vint 15)] ∧
    specListInvalid (mkField 50) trailInst [(("pub_date"), [("")])] = false := by
  constructor
  · rw [get_uniqueness_lookups.eq_def]
    simp [trailInst, mkField, lookupField, lookupAttr, truthy, innerFalsy, idxOf,
      dateParts, dateLookups, consLookups, gul_nil]
    rfl
  · decide

/-- The path `category__` (empty remainder on a non-date attribute) does
not raise: utils.py line 140 treats it as absent and line 147 emits the
plain lookup. -/
theorem gul_trailing_on_plain :
    get_uniqueness_lookups (mkField 50) trailInst [(("category"), [("")])] =
      .ok [(("category"), Value.vstr (strChars ("news")))] ∧
    specListInvalid (mkField 50) trailInst [(("category"), [("")])] = false := by
  constructor
  · rw [get_uniqueness_lookups.eq_def]
    simp [trailInst, mkField, lookupField, lookupAttr, truthy, innerFalsy, idxOf,
      dateParts, dateLookups, consLookups, gul_nil]
    rfl
  · decide

/-! ## Claim C9: the candidate resolver -/

/-- The result of a `populate_from` callable: one value or a sequence. -/
inductive CallResult where
  | single (v : Value) : CallResult
  | many (vs : List Value) : CallResult

/-- The `populate_from` configuration: a callable taking the record, a
single attribute name, or a list of attribute names. -/
inductive PopulateFrom where
  | pfCallable (f : Inst → CallResult) : PopulateFrom
  | pfName (n : String) : PopulateFrom
  | pfNames (ns : List String) : PopulateFrom

/-- utils.py line 27: `value = callable(attr) and attr() or attr`, the
Python 2-era conditional idiom.  A callable attribute is invoked, but when
the call's result is falsy the whole expression evaluates to `attr`
itself — the callable object — not to the result. -/
def andOrCall (attr : Value) : Value :=
  match attr with
  | .vfun r => if truthy r then r else .vfun r
  | v => v

/-- utils.py lines 24-28: read each named attribute in the given order,
applying line 27 to each. -/
def readAttrValues (inst : Inst) : List String → Except String (List Value)
  | [] => .ok []
  | n :: rest =>
    match lookupAttr inst.attrs n with
    | none => .error ("AttributeError: " ++ n)
    | some attr =>
      match readAttrValues inst rest with
      | .error e => .error e
      | .ok vs => .ok (andOrCall attr :: vs)

/-- `get_prepopulated_value` (utils.py lines 8-30): a callable
`populate_from` is invoked on the record (wrapping a single result as a
one-element list); a name or list of names is read attribute by attribute. -/
def get_prepopulated_value (pf : PopulateFrom) (inst : Inst) : Except String (List Value) :=
  match pf with
  | .pfCallable f =>
    match f inst with
    | .single v => .ok [v]
    | .many vs => .ok vs
  | .pfName n => readAttrValues inst [n]
  | .pfNames ns => readAttrValues inst ns

/-- A record with a zero-argument callable `get_name` returning the empty
string, and a callable `get_title` returning a non-empty string. -/
def c9Inst : Inst :=
  ⟨[(("slug"), ⟨0, false, false⟩)],
   [(("get_name"), Value.vfun (Value.vstr [])),
    (("get_title"), Value.vfun (Value.vstr (strChars ("hi"))))]⟩

/-- Claim C9 states the intent, but utils.py line 27's `and/or` idiom
breaks it for falsy call results: with `populate_from = "get_name"` where
`get_name` is a zero-argument callable returning the empty string, the
collected candidate is the callable object itself, not the empty string
the call returned; a callable whose result is truthy (`get_title`) is
collected correctly, isolating the divergence to falsy results. -/
theorem claim_C9_bug :
    get_prepopulated_value (.pfName ("get_name")) c9Inst =
      .ok [Value.vfun (Value.vstr [])] ∧
    Value.vfun (Value.vstr []) ≠ Value.vstr [] ∧
    get_prepopulated_value (.pfName ("get_title")) c9Inst =
      .ok [Value.vstr (strChars ("hi"))] := by
  refine ⟨rfl, ?_, rfl⟩
  intro h
  exact Value.noConfusion h

/-! ## Claim C10: the `pre_save` call-arity mismatch -/

/-- Number of parameters of `generate_unique_slug`
(utils.py line 33: `def generate_unique_slug(field, instance, slugs)`). -/
def generate_unique_slug_paramCount : Nat := 3

/-- Number of positional arguments passed at fields.py line 271:
`utils.generate_unique_slug(self, instance, slugs, manager)`. -/
def pre_save_call_argCount : Nat := 4

/-- The uniqueness branch of `AutoSlugField.pre_save` (fields.py lines
269-273): when `unique` or `unique_with` is set, call
`generate_unique_slug` — Python raises `TypeError` at the call when the
positional-argument count does not match the signature, before the
function body (hence any rival query) runs.  When neither is set, line 273
reads the never-assigned local `slug` (`UnboundLocalError`). -/
def pre_save_unique_step (field : SlugField) (minst : MInst) (db : Db)
    (slugs : List Slug) (fuel : Nat) : Except String (Option Slug) :=
  if field.unique || !field.uniqueWith.isEmpty then
    if pre_save_call_argCount = generate_unique_slug_paramCount then
      generate_unique_slug field minst db slugs fuel
    else
      .error ("TypeError: generate_unique_slug takes 3 positional arguments but 4 were given")
  else
    .error ("UnboundLocalError: local variable slug referenced before assignment")

/-- Claim C10: whenever uniqueness checking is enabled (`unique` true or
`unique_with` non-empty), `pre_save` passes four positional arguments to
the three-parameter `generate_unique_slug`, so the uniqueness path always
fails with a call-arity `TypeError` before any slug is returned. -/
theorem claim_C10 (field : SlugField) (minst : MInst) (db : Db)
    (slugs : List Slug) (fuel : Nat)
    (h : field.unique = true ∨ field.uniqueWith ≠ []) :
    pre_save_unique_step field minst db slugs fuel =
      .error ("TypeError: generate_unique_slug takes 3 positional arguments but 4 were given") := by
  have hcond : (field.unique || !field.uniqueWith.isEmpty) = true := by
    rcases h with h | h
    · simp [h]
    · cases hu : field.uniqueWith with
      | nil => exact absurd hu h
      | cons a t => simp
  rw [pre_save_unique_step, if_pos hcond, if_neg (by decide)]

/-- Witness for C10: the default configuration (`unique = True`) fails
with the arity `TypeError`. -/
theorem claim_C10_witness :
    pre_save_unique_step (mkField 50) plainMInst [] [strChars ("hello")] 3 =
      .error ("TypeError: generate_unique_slug takes 3 positional arguments but 4 were given") :=
  claim_C10 (mkField 50) plainMInst [] [strChars ("hello")] 3 (Or.inl rfl)

end Autoslug
